import Mathlib

/-!
Verification of the layer library of GenerativeSkinLesion (src/layers.py).

Tensors are modelled as total real-valued functions on natural-number
indices; a shape such as N×C×H×W is a convention fixing which index ranges
the operations read and write.  Reductions (torch.mean) become sums over
`Finset.range` divided by the axis length, float square roots become
`Real.sqrt`, and the float literal 1e-8 is the exact rational 1/10^8.
Python runtime errors (the ZeroDivisionError reachable in
MinibatchStddev.forward) are modelled by `Option`: `none` is the raised
error.  Layer state (the equalized scale, the fade-in alpha) is passed
explicitly; construction-time computations are separate definitions from
the forward passes, which mirrors that `scale` is computed once in
`__init__` and only read afterwards.
-/

namespace GenerativeSkinLesion

noncomputable section

/-- A 4-dimensional tensor N×C×H×W: batch, channel, height, width. -/
abbrev Tensor4 : Type := ℕ → ℕ → ℕ → ℕ → ℝ

/-- Mean of the first `n` values of `f`, as `torch.mean` over an axis of
size `n` computes it: the sum divided by the length. -/
def tmean (n : ℕ) (f : ℕ → ℝ) : ℝ := (∑ i ∈ Finset.range n, f i) / n

/-! ### Equalized layers (src/layers.py, EqualizedConv2d / EqualizedDeconv2d /
EqualizedLinear)

The weight tensor is modelled flattened: a function `w : ℕ → ℝ` together
with its element count `K`; `weight.pow(2).mean()` is the mean over all `K`
elements regardless of the original rank, so nothing is lost.  `eqScale`
is line 51 (`self.scale = self.linear.weight.data.detach().pow(2.).mean().sqrt().item()`,
identically lines 17 and 34 for conv/deconv) and `eqScaledWeight` is the
in-place division on line 52 (`weight.data.copy_(weight.data.div(self.scale))`).
The scale is a construction-time constant: the forward passes below take it
as a fixed argument and never recompute it. -/

/-- Construction-time scale of an equalized layer:
`sqrt(mean(weight^2))` over the freshly initialized weight of `K` elements. -/
def eqScale (K : ℕ) (w : ℕ → ℝ) : ℝ :=
  Real.sqrt (tmean K fun i => (w i) ^ 2)

/-- The stored weight after construction: the initial weight divided
elementwise by `eqScale`. -/
def eqScaledWeight (K : ℕ) (w : ℕ → ℝ) : ℕ → ℝ :=
  fun i => w i / eqScale K w

/-- Bias vector at construction: `torch.FloatTensor(out_features).fill_(0)`,
a zero vector. -/
def eqBiasInit : ℕ → ℝ := fun _ => 0

/-- EqualizedLinear.forward (src/layers.py lines 53-58) on an input of
shape N×A×B (one batch axis plus two feature axes, standing for the
arbitrary non-batch shape the layer flattens): multiply the input by the
scalar `scale`, flatten the non-batch axes row-major (`x.view(x.size(0), -1)`),
apply the bias-free linear map with weight `W : out×(A*B)`, then, when
`useBias` is set, add the bias vector broadcast across the batch axis. -/
def eqLinearForward (A B : ℕ) (scale : ℝ) (W : ℕ → ℕ → ℝ) (bias : ℕ → ℝ)
    (useBias : Bool) (x : ℕ → ℕ → ℕ → ℝ) : ℕ → ℕ → ℝ :=
  let xs : ℕ → ℕ → ℕ → ℝ := fun n a b => x n a b * scale
  let flat : ℕ → ℕ → ℝ := fun n j => xs n (j / B) (j % B)
  let lin : ℕ → ℕ → ℝ := fun n o => ∑ j ∈ Finset.range (A * B), flat n j * W o j
  fun n o => if useBias then lin n o + bias o else lin n o

/-- The formula the specification gives for the equalized linear forward
pass: `(flatten(x) * scale) @ W^T + bias`.  Written from the spec's words,
to be compared with `eqLinearForward`, which is written from the source. -/
def eqLinearSpecFormula (A B : ℕ) (scale : ℝ) (W : ℕ → ℕ → ℝ) (bias : ℕ → ℝ)
    (x : ℕ → ℕ → ℕ → ℝ) : ℕ → ℕ → ℝ :=
  fun n o => (∑ j ∈ Finset.range (A * B), (x n (j / B) (j % B) * scale) * W o j) + bias o

/-! ### Minibatch standard deviation (src/layers.py lines 64-77) -/

/-- Group-size selection of MinibatchStddev.forward (lines 69-70):
`G = min(group_size, N) if N % group_size == 0 else N` and `M = int(N / G)`.
Python raises ZeroDivisionError when `group_size = 0` (at `N % group_size`)
and when `G = 0` (at `N / G`, reachable for `N = 0`); both error points are
modelled by `none`. -/
def mbGM (groupSize N : ℕ) : Option (ℕ × ℕ) :=
  if groupSize = 0 then none
  else
    let G := if N % groupSize = 0 then min groupSize N else N
    if G = 0 then none else some (G, N / G)

/-- The extra channel computed by MinibatchStddev.forward (lines 71-76) for
batch element `n`, given group size `G` and group count `M` with `N = G*M`:
reshape the batch to [G,M,C,H,W] (row-major, so batch element `a*M + b`
lands at group position `(a, b)`), subtract the per-position mean over the
group axis, average the squares over the group axis (variance), add 1e-8
and take the square root (stddev), average over the flattened C*H*W
feature positions to one scalar per group, and replicate it back over the
group members (`y.repeat(G,1,H,W)` tiles, so element `n` reads group
`n % M`).  The value is constant over `h` and `w`. -/
def mbAppended (G M C H W : ℕ) (x : Tensor4) (n : ℕ) : ℝ :=
  let y1 : ℕ → ℕ → ℕ → ℕ → ℕ → ℝ := fun a b c h w => x (a * M + b) c h w
  let y2 : ℕ → ℕ → ℕ → ℕ → ℕ → ℝ := fun a b c h w =>
    y1 a b c h w - tmean G (fun a2 => y1 a2 b c h w)
  let y3 : ℕ → ℕ → ℕ → ℕ → ℝ := fun b c h w => tmean G (fun a => (y2 a b c h w) ^ 2)
  let y4 : ℕ → ℕ → ℕ → ℕ → ℝ := fun b c h w => Real.sqrt (y3 b c h w + 1e-8)
  let y5 : ℕ → ℝ := fun b =>
    tmean (C * H * W) (fun j => y4 b (j / (H * W)) ((j % (H * W)) / W) (j % W))
  y5 (n % M)

/-- MinibatchStddev.forward (lines 68-77) on an N×C×H×W input: compute the
group shape, then concatenate the per-group stddev statistic as channel
`C`, keeping channels below `C` equal to the input.  `none` models the
Python ZeroDivisionError raised on line 69/70. -/
def mbstd (groupSize N C H W : ℕ) (x : Tensor4) : Option Tensor4 :=
  (mbGM groupSize N).map fun p => fun n c h w =>
    if c < C then x n c h w else mbAppended p.1 p.2 C H W x n

/-! ### Pixelwise feature normalization (src/layers.py lines 83-88) -/

/-- PixelwiseNorm.forward on an N×C×H×W input:
`y = torch.mean(x.pow(2), dim=1, keepdim=True) + 1e-8; return x.div(y.sqrt())`. -/
def pixelwiseNorm (C : ℕ) (x : Tensor4) : Tensor4 :=
  fun n c h w => x n c h w / Real.sqrt (tmean C (fun c2 => (x n c2 h w) ^ 2) + 1e-8)

/-! ### Fade-in (src/layers.py lines 93-112) -/

/-- ConcatTable.forward: apply both branches to the same input and return
the ordered pair of outputs (first the old branch, then the new one). -/
def concatTable (layer1 layer2 : Tensor4 → Tensor4) (x : Tensor4) : Tensor4 × Tensor4 :=
  (layer1 x, layer2 x)

/-- The alpha stored by `Fadein.__init__` with its default argument. -/
def fadeinInitAlpha : ℝ := 0

/-- Fadein.update_alpha (lines 105-107): add the delta, then clamp into
[0, 1] via `max(0, min(alpha, 1.0))`.  Total: no input raises. -/
def updateAlpha (alpha delta : ℝ) : ℝ :=
  max 0 (min (alpha + delta) 1)

/-- Fadein.forward (lines 110-112) on the ordered pair produced by
ConcatTable: `x[0].mul(1.0 - alpha) + x[1].mul(alpha)`. -/
def fadeinForward (alpha : ℝ) (x : Tensor4 × Tensor4) : Tensor4 :=
  fun n c h w => x.1 n c h w * (1 - alpha) + x.2 n c h w * alpha

/-! ### Nearest-neighbor upsample (src/layers.py lines 118-122)

`F.interpolate(x, scale_factor=2, mode='nearest')` is a framework
primitive; its nearest-neighbor index rule maps destination index `i` of an
output axis of size `outSize` to source index `floor(i * inSize / outSize)`
on the axis of size `inSize`.  With `scale_factor=2` the output axes have
size `2*H` and `2*W`. -/

/-- Nearest-neighbor source index of the interpolation primitive. -/
def nearestSrcIdx (inSize outSize i : ℕ) : ℕ := i * inSize / outSize

/-- Upsample.forward on an N×C×H×W input: fixed 2x nearest-neighbor
interpolation, giving an N×C×(2H)×(2W) output. -/
def upsample (H W : ℕ) (x : Tensor4) : Tensor4 :=
  fun n c i j => x n c (nearestSrcIdx H (2 * H) i) (nearestSrcIdx W (2 * W) j)

/-! ### Helper lemmas -/

/-- The mean of a constant over a nonempty axis is that constant. -/
lemma tmean_const (n : ℕ) (hn : 0 < n) (v : ℝ) : tmean n (fun _ => v) = v := by
  have hn' : (n : ℝ) ≠ 0 := Nat.cast_ne_zero.mpr hn.ne'
  simp [tmean, Finset.sum_const, Finset.card_range, mul_comm, mul_div_assoc, div_self hn']

/-- Means only read the function below the axis length. -/
lemma tmean_congr (n : ℕ) (f g : ℕ → ℝ) (h : ∀ i, i < n → f i = g i) :
    tmean n f = tmean n g := by
  unfold tmean
  congr 1
  exact Finset.sum_congr rfl fun i hi => h i (Finset.mem_range.mp hi)

/-- The exact value of `sqrt 1e-8` over the reals. -/
lemma sqrt_em8 : Real.sqrt (1e-8 : ℝ) = 1 / 10000 := by
  rw [show (1e-8 : ℝ) = (1 / 10000 : ℝ) ^ 2 by norm_num]
  exact Real.sqrt_sq (by norm_num)

/-- A positive batch with a positive group size never hits the
ZeroDivisionError of MinibatchStddev.forward. -/
lemma mbGM_isSome (g N : ℕ) (hg : 1 ≤ g) (hN : 1 ≤ N) : (mbGM g N).isSome := by
  unfold mbGM
  rw [if_neg (by omega : ¬ g = 0)]
  by_cases h : N % g = 0
  · simp only [if_pos h]
    rw [if_neg (by omega : ¬ min g N = 0)]
    rfl
  · simp only [if_neg h]
    rw [if_neg (by omega : ¬ N = 0)]
    rfl

/-! ### Claim theorems -/

/-- Claim C1: for every equalized layer, construction computes
`scale = sqrt(mean(initial_weight^2))` over the freshly initialized weight
and divides the weight by it, so that afterwards `mean(weight^2) = 1`
(exactly, over the reals) and `scale` equals the square root of the
pre-scale mean square.  The hypothesis — the fresh weight is not
identically zero, so its mean square is positive — holds almost surely for
the Kaiming-normal initialization the constructors use.  That `scale` is
computed once and never recomputed is structural in the embedding: the
forward passes take it as a fixed argument. -/
theorem eqScale_normalizes (K : ℕ) (w : ℕ → ℝ)
    (h : 0 < tmean K (fun i => (w i) ^ 2)) :
    eqScale K w = Real.sqrt (tmean K (fun i => (w i) ^ 2)) ∧
    tmean K (fun i => (eqScaledWeight K w i) ^ 2) = 1 := by
  refine ⟨rfl, ?_⟩
  set m := tmean K (fun i => (w i) ^ 2) with hm
  have hm0 : m ≠ 0 := ne_of_gt h
  have hstep : ∀ i, (eqScaledWeight K w i) ^ 2 = (w i) ^ 2 / m := by
    intro i
    rw [eqScaledWeight, div_pow, eqScale, ← hm, Real.sq_sqrt h.le]
  calc tmean K (fun i => (eqScaledWeight K w i) ^ 2)
      = tmean K (fun i => (w i) ^ 2 / m) :=
        tmean_congr K _ _ (fun i _ => hstep i)
    _ = tmean K (fun i => (w i) ^ 2) / m := by
        simp only [tmean, ← Finset.sum_div, div_div]
        rw [mul_comm]
    _ = m / m := by rw [← hm]
    _ = 1 := div_self hm0

theorem eqScale_normalizes_witness :
    0 < tmean 2 (fun i => ((if i = 0 then (1 : ℝ) else 7)) ^ 2) ∧
    tmean 2 (fun i => (eqScaledWeight 2 (fun i => if i = 0 then (1 : ℝ) else 7) i) ^ 2) = 1 := by
  have h : 0 < tmean 2 (fun i => ((if i = 0 then (1 : ℝ) else 7)) ^ 2) := by
    norm_num [tmean, Finset.sum_range_succ]
  exact ⟨h, (eqScale_normalizes 2 (fun i => if i = 0 then (1 : ℝ) else 7) h).2⟩

/-- Claim C2: when bias is enabled, EqualizedLinear.forward equals
`(flatten(x) * scale) @ W^T + bias`: the input is scaled by the fixed
scalar, the non-batch axes are flattened, the bias-free linear map is
applied, and the zero-initialized bias vector is added broadcast across
the batch axis (the right-hand side adds `bias o` independently of the
batch index `n`). -/
theorem eqLinearForward_eq_spec (A B : ℕ) (scale : ℝ) (W : ℕ → ℕ → ℝ)
    (bias : ℕ → ℝ) (useBias : Bool) (x : ℕ → ℕ → ℕ → ℝ)
    (h : useBias = true) :
    eqLinearForward A B scale W bias useBias x = eqLinearSpecFormula A B scale W bias x := by
  subst h
  funext n o
  simp only [eqLinearForward, eqLinearSpecFormula, if_true]

theorem eqLinearForward_eq_spec_witness :
    (true = true) ∧
    eqLinearForward 1 1 2 (fun _ _ => 3) (fun _ => 5) true (fun _ _ _ => 7) =
      eqLinearSpecFormula 1 1 2 (fun _ _ => 3) (fun _ => 5) (fun _ _ _ => 7) :=
  ⟨rfl, eqLinearForward_eq_spec 1 1 2 (fun _ _ => 3) (fun _ => 5) true (fun _ _ _ => 7) rfl⟩

/-- Claim C5: the Fadein alpha lies in [0,1] at (default) construction and
after every update, which adds the delta and clamps into [0,1]; updates
are total (no input errors, clamping instead), and the spec's two examples
hold exactly: advancing by 0.3 from 0.9 gives 1 and advancing by -0.5 from
0.2 gives 0. -/
theorem fadein_alpha_clamped :
    (0 ≤ fadeinInitAlpha ∧ fadeinInitAlpha ≤ 1) ∧
    (∀ a d : ℝ, 0 ≤ updateAlpha a d ∧ updateAlpha a d ≤ 1) ∧
    updateAlpha 0.9 0.3 = 1 ∧
    updateAlpha 0.2 (-0.5) = 0 := by
  refine ⟨⟨le_refl 0, zero_le_one⟩, fun a d => ⟨le_max_left 0 _, ?_⟩, ?_, ?_⟩
  · exact max_le zero_le_one (min_le_right _ 1)
  · rw [updateAlpha, min_eq_right (by norm_num), max_eq_right (by norm_num)]
  · rw [updateAlpha, min_eq_left (by norm_num), max_eq_left (by norm_num)]

/-- Claim C6: Fadein.forward on the ordered pair (old, new) computes
`old*(1-alpha) + new*alpha`; at alpha = 0 it returns exactly the old
branch output, at alpha = 1 exactly the new one, and at alpha = 1/2 the
elementwise average. -/
theorem fadein_forward_blend (old new : Tensor4) :
    (∀ a : ℝ, fadeinForward a (old, new) =
      fun n c h w => old n c h w * (1 - a) + new n c h w * a) ∧
    fadeinForward 0 (old, new) = old ∧
    fadeinForward 1 (old, new) = new ∧
    fadeinForward (1 / 2) (old, new) =
      fun n c h w => (old n c h w + new n c h w) / 2 := by
  refine ⟨fun a => rfl, ?_, ?_, ?_⟩
  all_goals
    funext n c h w
    simp only [fadeinForward]
    ring

/-- Claim C3 counterexample: on a batch of 4 identical (all-zero) 1×1×1
feature maps with group_size 4, the appended channel value is
`sqrt(0 + 1e-8) = 1/10000`, which is not zero: the claim that the appended
channel is all-zeros is false, because the code adds 1e-8 to the (zero)
variance before the square root. -/
theorem mbstd_identical_zero_counterexample :
    (mbstd 4 4 1 1 1 (fun _ _ _ _ => (0 : ℝ))).map (fun out => out 0 1 0 0) =
      some (1 / 10000) ∧
    ¬ ((1 : ℝ) / 10000 = 0) := by
  constructor
  · have hGM : mbGM 4 4 = some (4, 1) := rfl
    unfold mbstd
    rw [hGM, Option.map_some', Option.map_some']
    congr 1
    simp only [lt_irrefl, if_false]
    simp only [mbAppended, Nat.mod_one, mul_one, add_zero]
    rw [tmean_const 4 (by norm_num) (0 : ℝ), tmean_congr 4 _ (fun _ => (0 : ℝ))
      (fun a _ => by ring), tmean_const 4 (by norm_num) (0 : ℝ),
      tmean_congr _ _ (fun _ => (1 : ℝ) / 10000)
        (fun j _ => by rw [zero_add, sqrt_em8]),
      tmean_const _ (by norm_num) _]
  · norm_num

/-- Claim C3 (amended): for an input batch of 4 identical feature maps
with group_size 4 (so G = 4, M = 1) and at least one feature position,
every value of the appended channel equals `sqrt(1e-8) = 1/10000` — the
variance of identical samples is 0, but the code adds 1e-8 before the
square root, so the channel is approximately zero, not exactly zero. -/
theorem mbstd_identical_appended (C H W : ℕ) (x : Tensor4)
    (hCHW : 0 < C * H * W)
    (hid : ∀ n c h w, x n c h w = x 0 c h w)
    (n h w : ℕ) :
    (mbstd 4 4 C H W x).map (fun out => out n C h w) = some (1 / 10000) := by
  have hGM : mbGM 4 4 = some (4, 1) := rfl
  unfold mbstd
  rw [hGM, Option.map_some', Option.map_some']
  congr 1
  simp only [lt_irrefl, if_false]
  simp only [mbAppended, Nat.mod_one, mul_one, add_zero]
  have key : ∀ c' h' w' : ℕ,
      Real.sqrt (tmean 4 (fun a =>
        (x a c' h' w' - tmean 4 (fun a2 => x a2 c' h' w')) ^ 2) + 1e-8) =
      1 / 10000 := by
    intro c' h' w'
    have hin : tmean 4 (fun a2 => x a2 c' h' w') = x 0 c' h' w' := by
      rw [tmean_congr 4 _ (fun _ => x 0 c' h' w') (fun a _ => hid a c' h' w'),
        tmean_const 4 (by norm_num)]
    rw [hin]
    have hz : tmean 4 (fun a => (x a c' h' w' - x 0 c' h' w') ^ 2) = 0 := by
      rw [tmean_congr 4 _ (fun _ => (0 : ℝ))
        (fun a _ => by rw [hid a c' h' w']; ring), tmean_const 4 (by norm_num)]
    rw [hz, zero_add, sqrt_em8]
  rw [tmean_congr (C * H * W) _ (fun _ => (1 : ℝ) / 10000) (fun j _ => key _ _ _),
    tmean_const _ hCHW]

theorem mbstd_identical_appended_witness :
    0 < 1 * 1 * 1 ∧
    (mbstd 4 4 1 1 1 (fun _ _ _ _ => (5 : ℝ))).map (fun out => out 2 1 0 0) =
      some (1 / 10000) :=
  ⟨by norm_num,
    mbstd_identical_appended 1 1 1 (fun _ _ _ _ => (5 : ℝ)) (by norm_num)
      (fun _ _ _ _ => rfl) 2 0 0⟩

/-- Claim C4: with a positive group size and positive batch size N, when N
is not evenly divisible by the group size, MinibatchStddev.forward falls
back to G = N (the whole batch as one group) and M = 1; when N is evenly
divisible, G = min(group_size, N); in both cases the forward pass
completes without raising (its result is `some`). -/
theorem mbstd_group_fallback (g N : ℕ) (hg : 1 ≤ g) (hN : 1 ≤ N) :
    (¬ N % g = 0 → mbGM g N = some (N, 1)) ∧
    (N % g = 0 → mbGM g N = some (min g N, N / min g N)) ∧
    (∀ C H W x, (mbstd g N C H W x).isSome) := by
  refine ⟨?_, ?_, ?_⟩
  · intro h
    unfold mbGM
    rw [if_neg (by omega : ¬ g = 0)]
    simp only [if_neg h]
    rw [if_neg (by omega : ¬ N = 0), Nat.div_self (by omega : 0 < N)]
  · intro h
    unfold mbGM
    rw [if_neg (by omega : ¬ g = 0)]
    simp only [if_pos h]
    rw [if_neg (by omega : ¬ min g N = 0)]
  · intro C H W x
    have hs := mbGM_isSome g N hg hN
    unfold mbstd
    cases hp : mbGM g N with
    | none => rw [hp] at hs; exact absurd hs (by simp)
    | some p => simp

theorem mbstd_group_fallback_witness :
    ¬ (5 % 4 = 0) ∧ mbGM 4 5 = some (5, 1) :=
  ⟨by decide, (mbstd_group_fallback 4 5 (by decide) (by decide)).1 (by decide)⟩

/-- Claim C7: PixelwiseNorm divides each value by the square root of the
channel-axis mean square plus 1e-8; at a pixel where all C channel values
equal the constant v, every output channel value there is
`v / sqrt(v^2 + 1e-8)`. -/
theorem pixelwiseNorm_const_pixel (C : ℕ) (x : Tensor4) (n h w : ℕ) (v : ℝ)
    (hC : 0 < C) (hv : ∀ c, c < C → x n c h w = v) (c : ℕ) (hc : c < C) :
    pixelwiseNorm C x n c h w = v / Real.sqrt (v ^ 2 + 1e-8) := by
  unfold pixelwiseNorm
  rw [hv c hc,
    tmean_congr C _ (fun _ => v ^ 2) (fun i hi => by rw [hv i hi]),
    tmean_const C hC]

theorem pixelwiseNorm_const_pixel_witness :
    0 < 2 ∧
    pixelwiseNorm 2 (fun _ _ _ _ => (3 : ℝ)) 0 1 0 0 =
      3 / Real.sqrt (3 ^ 2 + 1e-8) :=
  ⟨by norm_num,
    pixelwiseNorm_const_pixel 2 (fun _ _ _ _ => (3 : ℝ)) 0 0 0 3 (by norm_num)
      (fun _ _ => rfl) 1 (by norm_num)⟩

/-- Claim C8: whenever MinibatchStddev.forward succeeds, the first C
channels of the output are identical to the input (the input itself is a
function the layer never mutates), and the single appended channel C holds
the group-stddev statistic; batch and spatial axes are untouched (the
output reads them at the same indices). -/
theorem mbstd_preserves_input (g N C H W : ℕ) (x : Tensor4) (out : Tensor4)
    (hout : mbstd g N C H W x = some out) :
    (∀ n c h w, c < C → out n c h w = x n c h w) ∧
    (∀ p, mbGM g N = some p →
      ∀ n h w, out n C h w = mbAppended p.1 p.2 C H W x n) := by
  constructor
  · intro n c h w hc
    unfold mbstd at hout
    cases hp : mbGM g N with
    | none => rw [hp] at hout; exact absurd hout (by simp)
    | some p =>
      rw [hp, Option.map_some'] at hout
      have hf := Option.some.inj hout
      rw [← hf]
      simp only []
      rw [if_pos hc]
  · intro p hp n h w
    unfold mbstd at hout
    rw [hp, Option.map_some'] at hout
    have hf := Option.some.inj hout
    rw [← hf]
    simp only []
    rw [if_neg (lt_irrefl C)]

theorem mbstd_preserves_input_witness :
    (mbstd 4 4 1 1 1 (fun _ _ _ _ => (3 : ℝ))).map (fun out => out 0 0 0 0) =
      some 3 := by
  cases hF : mbstd 4 4 1 1 1 (fun _ _ _ _ => (3 : ℝ)) with
  | none =>
    have hGM : mbGM 4 4 = some (4, 1) := rfl
    unfold mbstd at hF
    rw [hGM] at hF
    exact absurd hF (by simp)
  | some F =>
    have h := (mbstd_preserves_input 4 4 1 1 1 _ F hF).1 0 0 0 0 (by norm_num)
    rw [Option.map_some', h]

/-- Claim C9: Upsample.forward doubles height and width by nearest-neighbor
interpolation, leaving batch and channel untouched: for positive H and W,
output pixel (i, j) equals the source pixel (i / 2, j / 2) (floor
division) — pure index replication, no blending of source values. -/
theorem upsample_nearest (H W : ℕ) (x : Tensor4) (hH : 0 < H) (hW : 0 < W)
    (n c i j : ℕ) :
    upsample H W x n c i j = x n c (i / 2) (j / 2) := by
  unfold upsample nearestSrcIdx
  rw [Nat.mul_div_mul_right i 2 hH, Nat.mul_div_mul_right j 2 hW]

theorem upsample_nearest_witness :
    0 < 3 ∧
    upsample 3 3 (fun _ _ h w => ((h * 10 + w : ℕ) : ℝ)) 0 0 5 1 =
      ((5 / 2 * 10 + 1 / 2 : ℕ) : ℝ) :=
  ⟨by norm_num, upsample_nearest 3 3 (fun _ _ h w => ((h * 10 + w : ℕ) : ℝ))
    (by norm_num) (by norm_num) 0 0 5 1⟩

/-- Claim C10: MinibatchStddev.forward is not total on empty batches: for
N = 0 the divisibility test 0 % group_size = 0 holds, so G = min(g, 0) = 0
and the group-count division N / G raises ZeroDivisionError (modelled by
`none`, reached at the division on line 70, before any tensor operation);
any N ≥ 1 avoids the error. -/
theorem mbstd_empty_batch (g : ℕ) (hg : 1 ≤ g) :
    (0 % g = 0) ∧ (min g 0 = 0) ∧ mbGM g 0 = none ∧
    (∀ N, 1 ≤ N → (mbGM g N).isSome) := by
  refine ⟨Nat.zero_mod g, Nat.min_zero g, ?_, fun N hN => mbGM_isSome g N hg hN⟩
  unfold mbGM
  rw [if_neg (by omega : ¬ g = 0)]
  simp [Nat.zero_mod, Nat.min_zero]

theorem mbstd_empty_batch_witness :
    (1 ≤ 4) ∧ mbGM 4 0 = none :=
  ⟨by decide, (mbstd_empty_batch 4 (by decide)).2.2.1⟩

end

end GenerativeSkinLesion
